import Mathlib

/-!
Verification of `miraiml.pipeline.compose` and the pipeline-instance
parameter protocol described in the specification.

The data model embeds the dynamic Python values that `compose` inspects:
an alias is an arbitrary Python object (string or not), and a step class
is characterised by the attribute listing that `dir(...)` reports
(each attribute with a callability flag, since `compose` only tests name
membership) together with its constructor parameter defaults.
-/

/-- A Python value supplied as an alias: either a string or some
non-string object (tagged by a number, standing for its identity). -/
inductive PyObject where
  | str (s : String)
  | other (tag : Nat)
deriving DecidableEq, Repr

/-- One attribute of a Python class, as reported by `dir`: its name and
whether the attribute's value is callable. -/
structure PyAttr where
  name : String
  callable : Bool
deriving DecidableEq, Repr

/-- A parameter value handled by the flat-parameter protocol. -/
inductive Val where
  | vint (n : Int)
  | vstr (s : String)
  | vnone
deriving DecidableEq, Repr

/-- A step class (`class_type` in the source): its `__name__`, the
attributes `dir(class_type)` reports, and its constructor defaults. -/
structure ClassType where
  name : String
  attrs : List PyAttr
  defaults : List (String × Val)
deriving DecidableEq, Repr

/-- The attribute-name listing `dir(class_type)` used by the capability
checks (`class_content` in the source). -/
def dirOf (c : ClassType) : List String :=
  c.attrs.map (fun a => a.name)

/-- True when the list of characters starts with a decimal digit. -/
def startsWithDigit : List Char → Bool
  | [] => false
  | c :: _ => c.isDigit

/-- True when the list of characters contains the two-character
namespace separator `__`. -/
def containsSep : List Char → Bool
  | [] => false
  | [_] => false
  | c1 :: c2 :: rest =>
    if c1 = '_' ∧ c2 = '_' then true else containsSep (c2 :: rest)

/-- Modelled from the spec: `is_valid_pipeline_name` lives in
`miraiml.util`, which is not part of the sources at hand; the spec's
contract for the external naming predicate is to reject empty strings,
strings starting with a digit, and strings containing the two-character
namespace separator `__`. -/
def is_valid_pipeline_name (s : String) : Bool :=
  ¬ (s.data = []) ∧ ¬ (startsWithDigit s.data = true) ∧ ¬ (containsSep s.data = true)

/-- The errors `compose` can raise, following the spec's taxonomy.
`invalidAliasType` is the source's `TypeError`, `invalidAliasName` and
`duplicateAlias` are its two `ValueError`s, `missingCapability` is its
`NotImplementedError` (carrying the class name and the message's
capability text). -/
inductive ComposeError where
  | invalidAliasType (obj : PyObject)
  | invalidAliasName (s : String)
  | missingCapability (className : String) (capability : String)
  | duplicateAlias
deriving DecidableEq, Repr

/-- Whether an error is one of the capability errors. -/
def ComposeError.isMissingCapability : ComposeError → Bool
  | .missingCapability _ _ => true
  | _ => false

/-- The pipeline type produced by `compose`: a type value whose `steps`
attribute holds the descriptor list. -/
structure PipelineType where
  steps : List (PyObject × ClassType)
deriving DecidableEq, Repr

/-- The per-descriptor validation of the loop body of `compose`
(pipeline.py lines 118-141): alias must be a string, then must satisfy
the naming predicate, then the class must list `fit`, then `transform`
when the descriptor is not the last or `predict`/`predict_proba` when it
is. Returns the alias string on success. -/
def checkStep (isLast : Bool) (d : PyObject × ClassType) : Except ComposeError String :=
  match d.1 with
  | .other tag => .error (.invalidAliasType (.other tag))
  | .str s =>
    if is_valid_pipeline_name s = false then .error (.invalidAliasName s)
    else
      let class_content := dirOf d.2
      if ¬ ("fit" ∈ class_content) then .error (.missingCapability d.2.name "fit")
      else if isLast = false then
        if ¬ ("transform" ∈ class_content) then
          .error (.missingCapability d.2.name "transform")
        else .ok s
      else
        if ¬ ("predict" ∈ class_content) ∧ ¬ ("predict_proba" ∈ class_content) then
          .error (.missingCapability d.2.name "predict or predict_proba")
        else .ok s

/-- The validation loop of `compose`: each descriptor is checked in
declared order (a descriptor is terminal exactly when nothing follows
it, matching the source's `len(aliases) < len(steps)` test), and the
collected alias strings are returned. -/
def validateAliases : List (PyObject × ClassType) → Except ComposeError (List String)
  | [] => .ok []
  | d :: rest =>
    match checkStep rest.isEmpty d with
    | .error e => .error e
    | .ok s =>
      match validateAliases rest with
      | .error e => .error e
      | .ok tl => .ok (s :: tl)

/-- `miraiml.pipeline.compose` (pipeline.py lines 116-146): validate the
descriptors in order, then reject repeated aliases (the source's
`len(set(aliases)) != len(aliases)` test), then return a new type whose
`steps` attribute is the input list. -/
def compose (steps : List (PyObject × ClassType)) : Except ComposeError PipelineType :=
  match validateAliases steps with
  | .error e => .error e
  | .ok aliases =>
    if aliases.Nodup then .ok { steps := steps } else .error .duplicateAlias

/-- A transformer-like class with callable fit/transform. -/
def scalerCls : ClassType :=
  { name := "Scaler"
    attrs := [{ name := "fit", callable := true }, { name := "transform", callable := true }]
    defaults := [("with_mean", .vint 1)] }

/-- An estimator-like class with callable fit/predict. -/
def estCls : ClassType :=
  { name := "Est"
    attrs := [{ name := "fit", callable := true }, { name := "predict", callable := true }]
    defaults := [("depth", .vint 3)] }

/-- A class exposing no attributes at all. -/
def noFitCls : ClassType :=
  { name := "NoFit", attrs := [], defaults := [] }

example : is_valid_pipeline_name "valid_name" = true := by decide

example : is_valid_pipeline_name "1bad" = false := by decide

example : is_valid_pipeline_name "x__y" = false := by decide

example : compose [(.str "a", scalerCls), (.str "b", estCls)] =
    .ok { steps := [(.str "a", scalerCls), (.str "b", estCls)] } := by rfl

example : compose [(.str "a", noFitCls), (.str "a", noFitCls)] =
    .error (.missingCapability "NoFit" "fit") := by rfl

example : compose [(.str "a", scalerCls), (.str "a", estCls)] =
    .error .duplicateAlias := by rfl

example : compose [] = .ok { steps := [] } := by rfl

/-- A step instance inside a pipeline instance: its alias and its own
parameter mapping (an ordered association list standing for the Python
dict of the step's current parameters; the step's parameter names are a
fixed set, as with scikit-learn constructor parameters). -/
structure StepInstance where
  stepAlias : String
  params : List (String × Val)
deriving DecidableEq, Repr

/-- A pipeline instance: the ordered sequence of step instances it
exclusively owns. -/
structure PipelineInstance where
  steps : List StepInstance
deriving DecidableEq, Repr

/-- Splits a list of characters at the first occurrence of the
namespace separator `__` (the semantics of Python's
`key.split(sep, 1)` for a two-underscore separator). -/
def splitOnSep : List Char → Option (List Char × List Char)
  | [] => none
  | [_] => none
  | c1 :: c2 :: rest =>
    if c1 = '_' ∧ c2 = '_' then some ([], rest)
    else (splitOnSep (c2 :: rest)).map (fun p => (c1 :: p.1, p.2))

/-- Splits a flat parameter key on the first `__` into
(alias, parameter name); `none` when the key holds no separator. -/
def splitParamKey (k : String) : Option (String × String) :=
  (splitOnSep k.data).map (fun p => (String.mk p.1, String.mk p.2))

/-- First value bound to a key in an association list (Python dict
lookup, with earlier entries taking precedence). -/
def lookupStr (k : String) : List (String × Val) → Option Val
  | [] => none
  | e :: rest => if e.1 = k then some e.2 else lookupStr k rest

/-- Modelled from the spec: the partitioning step of the flat-parameter
protocol of `BasePipelineClass` (`miraiml.core`, not part of the sources
at hand) — each flat key is split on the first `__` into
(alias, paramName), and the entries whose alias matches are collected
into the step's own sub-mapping. -/
def subParams (a : String) : List (String × Val) → List (String × Val)
  | [] => []
  | e :: rest =>
    match splitParamKey e.1 with
    | some p => if p.1 = a then (p.2, e.2) :: subParams a rest else subParams a rest
    | none => subParams a rest

/-- The flat key `alias__paramName`. -/
def flatKey (a n : String) : String := a ++ "__" ++ n

/-- The flat entries one step contributes to `get_params`. -/
def stepFlat (st : StepInstance) : List (String × Val) :=
  st.params.map (fun q => (flatKey st.stepAlias q.1, q.2))

/-- Modelled from the spec: `get_params` of a pipeline instance
(`BasePipelineClass`, `miraiml.core`, not part of the sources at hand) —
for each step in order, for each of the step's own parameter names in
order, emit `alias__paramName -> currentValue`. -/
def get_params (p : PipelineInstance) : List (String × Val) :=
  (p.steps.map stepFlat).flatten

/-- One parameter entry after a step's own `set_params`: the
sub-mapping's value when it binds the name, the current value
otherwise. -/
def applySub (sub : List (String × Val)) (q : String × Val) : String × Val :=
  match lookupStr q.1 sub with
  | some v => (q.1, v)
  | none => q

/-- Modelled from the spec: a step's own `set_params` — updates the
current value of each of its own parameter names that the sub-mapping
binds; the parameter name set itself is fixed. -/
def stepSetParams (st : StepInstance) (sub : List (String × Val)) : StepInstance :=
  { st with params := st.params.map (applySub sub) }

/-- Modelled from the spec: `set_params` of a pipeline instance
(`BasePipelineClass`, `miraiml.core`, not part of the sources at hand) —
partitions the flat mapping as at construction and routes each
sub-mapping into the corresponding step's own `set_params`, mutating the
steps in place. Flat keys whose alias matches no step are ignored (the
spec leaves the unknown-key policy open; the source shows no explicit
check, so the permissive reading is modelled). -/
def set_params (p : PipelineInstance) (flat : List (String × Val)) : PipelineInstance :=
  { steps := p.steps.map (fun st => stepSetParams st (subParams st.stepAlias flat)) }

/-- The alias string carried by a validated descriptor (validated
descriptors always carry string aliases). -/
def aliasString : PyObject → String
  | .str s => s
  | .other _ => ""

/-- Modelled from the spec: instantiation of a composed pipeline type
(`BasePipelineClass.__init__`, `miraiml.core`, not part of the sources
at hand) — for each step descriptor in order, build the step's
sub-mapping from the flat mapping and instantiate the step class with
it, the class defaults applying to absent names; the resulting step
instances are stored in declared order. -/
def instantiate (pt : PipelineType) (flat : List (String × Val)) : PipelineInstance :=
  { steps := pt.steps.map (fun d =>
      { stepAlias := aliasString d.1
        params := d.2.defaults.map (fun q =>
          match lookupStr q.1 (subParams (aliasString d.1) flat) with
          | some v => (q.1, v)
          | none => q) }) }

example : get_params { steps := [{ stepAlias := "a", params := [("x", .vint 1)] },
    { stepAlias := "b", params := [("y", .vint 2)] }] } =
    [("a__x", .vint 1), ("b__y", .vint 2)] := by rfl

example : set_params { steps := [{ stepAlias := "a", params := [("x", .vint 1)] }] }
    [("a__x", .vint 7)] = { steps := [{ stepAlias := "a", params := [("x", .vint 7)] }] } := by
  rfl

example : instantiate { steps := [(.str "a", scalerCls), (.str "b", estCls)] }
    [("b__depth", .vint 9)] =
    { steps := [{ stepAlias := "a", params := [("with_mean", .vint 1)] },
                { stepAlias := "b", params := [("depth", .vint 9)] }] } := by rfl

/-- The alias-level checks a descriptor must pass before its capability
checks run: the alias is a string and satisfies the naming predicate. -/
def aliasChecksPass (d : PyObject × ClassType) : Prop :=
  ∃ s, d.1 = .str s ∧ is_valid_pipeline_name s = true

/-- The capability requirements of one position: `fit` always,
`transform` for non-terminal positions, `predict` or `predict_proba`
for the terminal one. -/
def stepCapsOk (isLast : Bool) (c : ClassType) : Prop :=
  "fit" ∈ dirOf c ∧
    (isLast = false → "transform" ∈ dirOf c) ∧
    (isLast = true → ("predict" ∈ dirOf c ∨ "predict_proba" ∈ dirOf c))

/-- The position-wise capability requirements of a whole descriptor
list: every non-terminal class lists `fit` and `transform`, the
terminal class lists `fit` and `predict` or `predict_proba`. -/
def capsAllOk : List (PyObject × ClassType) → Prop
  | [] => True
  | [d] => "fit" ∈ dirOf d.2 ∧ ("predict" ∈ dirOf d.2 ∨ "predict_proba" ∈ dirOf d.2)
  | d :: e :: rest =>
    ("fit" ∈ dirOf d.2 ∧ "transform" ∈ dirOf d.2) ∧ capsAllOk (e :: rest)

theorem checkStep_other (isLast : Bool) (tag : Nat) (c : ClassType) :
    checkStep isLast (.other tag, c) = .error (.invalidAliasType (.other tag)) := rfl

theorem checkStep_badname (isLast : Bool) (s : String) (c : ClassType)
    (h : is_valid_pipeline_name s = false) :
    checkStep isLast (.str s, c) = .error (.invalidAliasName s) := by
  simp [checkStep, h]

theorem checkStep_nofit (isLast : Bool) (s : String) (c : ClassType)
    (hname : is_valid_pipeline_name s = true) (h : ¬ ("fit" ∈ dirOf c)) :
    checkStep isLast (.str s, c) = .error (.missingCapability c.name "fit") := by
  simp [checkStep, hname, h]

theorem checkStep_ok_of (isLast : Bool) (s : String) (c : ClassType)
    (hname : is_valid_pipeline_name s = true) (hC : stepCapsOk isLast c) :
    checkStep isLast (.str s, c) = .ok s := by
  obtain ⟨hfit, htr, hpred⟩ := hC
  cases isLast with
  | false => simp [checkStep, hname, hfit, htr rfl]
  | true =>
    rcases hpred rfl with h | h <;> simp [checkStep, hname, hfit, h]

theorem checkStep_err_missing (isLast : Bool) (s : String) (c : ClassType)
    (hname : is_valid_pipeline_name s = true) (hC : ¬ stepCapsOk isLast c) :
    ∃ cap, checkStep isLast (.str s, c) = .error (.missingCapability c.name cap) := by
  by_cases hfit : "fit" ∈ dirOf c
  · cases isLast with
    | false =>
      by_cases htr : "transform" ∈ dirOf c
      · exact absurd ⟨hfit, fun _ => htr, fun h => absurd h (by decide)⟩ hC
      · exact ⟨"transform", by simp [checkStep, hname, hfit, htr]⟩
    | true =>
      by_cases hp : "predict" ∈ dirOf c
      · exact absurd ⟨hfit, fun h => absurd h (by decide), fun _ => Or.inl hp⟩ hC
      · by_cases hq : "predict_proba" ∈ dirOf c
        · exact absurd ⟨hfit, fun h => absurd h (by decide), fun _ => Or.inr hq⟩ hC
        · exact ⟨"predict or predict_proba", by simp [checkStep, hname, hfit, hp, hq]⟩
  · exact ⟨"fit", checkStep_nofit isLast s c hname hfit⟩

theorem checkStep_cases (isLast : Bool) (d : PyObject × ClassType) :
    (∃ tag, d.1 = .other tag ∧ checkStep isLast d = .error (.invalidAliasType d.1)) ∨
    (∃ s, d.1 = .str s ∧ is_valid_pipeline_name s = false ∧
      checkStep isLast d = .error (.invalidAliasName s)) ∨
    (∃ s cap, d.1 = .str s ∧
      checkStep isLast d = .error (.missingCapability d.2.name cap)) ∨
    (∃ s, d.1 = .str s ∧ checkStep isLast d = .ok s) := by
  obtain ⟨a, c⟩ := d
  cases a with
  | other tag => exact Or.inl ⟨tag, rfl, rfl⟩
  | str s =>
    by_cases hv : is_valid_pipeline_name s = false
    · exact Or.inr (Or.inl ⟨s, rfl, hv, checkStep_badname isLast s c hv⟩)
    · have hv' : is_valid_pipeline_name s = true := by
        revert hv; cases is_valid_pipeline_name s <;> simp
      by_cases hC : stepCapsOk isLast c
      · exact Or.inr (Or.inr (Or.inr ⟨s, rfl, checkStep_ok_of isLast s c hv' hC⟩))
      · obtain ⟨cap, hcap⟩ := checkStep_err_missing isLast s c hv' hC
        exact Or.inr (Or.inr (Or.inl ⟨s, cap, rfl, hcap⟩))

theorem checkStep_ne_duplicate (isLast : Bool) (d : PyObject × ClassType) :
    checkStep isLast d ≠ .error .duplicateAlias := by
  rcases checkStep_cases isLast d with ⟨_, _, h⟩ | ⟨_, _, _, h⟩ | ⟨_, _, _, h⟩ | ⟨_, _, h⟩ <;>
    simp [h]

theorem checkStep_name_invalid (isLast : Bool) (d : PyObject × ClassType) (s : String)
    (h : checkStep isLast d = .error (.invalidAliasName s)) :
    is_valid_pipeline_name s = false := by
  rcases checkStep_cases isLast d with ⟨_, _, h2⟩ | ⟨s2, _, hv, h2⟩ | ⟨_, _, _, h2⟩ | ⟨_, _, h2⟩ <;>
      rw [h2] at h <;> simp at h
  · exact h ▸ hv

theorem checkStep_ok_str (isLast : Bool) (d : PyObject × ClassType) (s : String)
    (h : checkStep isLast d = .ok s) : d.1 = .str s := by
  rcases checkStep_cases isLast d with ⟨_, _, h2⟩ | ⟨_, _, _, h2⟩ | ⟨_, _, _, h2⟩ | ⟨s2, hd, h2⟩ <;>
      rw [h2] at h <;> simp at h
  · exact h ▸ hd

theorem validateAliases_cons_err (d : PyObject × ClassType)
    (rest : List (PyObject × ClassType)) (e : ComposeError)
    (h : checkStep rest.isEmpty d = .error e) :
    validateAliases (d :: rest) = .error e := by
  simp [validateAliases, h]

theorem validateAliases_ok_mem (steps : List (PyObject × ClassType)) (as : List String)
    (h : validateAliases steps = .ok as) :
    ∀ d ∈ steps, ∃ s, checkStep true d = .ok s ∨ checkStep false d = .ok s := by
  induction steps generalizing as with
  | nil => intro d hd; cases hd
  | cons d0 rest ih =>
    intro d hd
    rw [validateAliases] at h
    cases h1 : checkStep rest.isEmpty d0 with
    | error e => rw [h1] at h; cases h
    | ok s =>
      rw [h1] at h
      cases h2 : validateAliases rest with
      | error e => rw [h2] at h; cases h
      | ok tl =>
        rcases List.mem_cons.mp hd with hd | hd
        · subst hd
          cases hre : rest.isEmpty with
          | true => exact ⟨s, Or.inl (by rw [← hre]; exact h1)⟩
          | false => exact ⟨s, Or.inr (by rw [← hre]; exact h1)⟩
        · exact ih tl h2 d hd

theorem validateAliases_map (steps : List (PyObject × ClassType)) (as : List String)
    (h : validateAliases steps = .ok as) :
    as = steps.map (fun d => aliasString d.1) := by
  induction steps generalizing as with
  | nil => rw [validateAliases] at h; cases h; rfl
  | cons d0 rest ih =>
    rw [validateAliases] at h
    cases h1 : checkStep rest.isEmpty d0 with
    | error e => rw [h1] at h; cases h
    | ok s =>
      rw [h1] at h
      cases h2 : validateAliases rest with
      | error e => rw [h2] at h; cases h
      | ok tl =>
        rw [h2] at h
        cases h
        have hstr := checkStep_ok_str rest.isEmpty d0 s h1
        rw [List.map_cons, ← ih tl h2, hstr]
        rfl

theorem validateAliases_append_err (pre : List (PyObject × ClassType))
    (d : PyObject × ClassType) (post : List (PyObject × ClassType)) (e : ComposeError)
    (hpre : ∀ x ∈ pre, ∃ s, checkStep false x = .ok s)
    (hd : checkStep post.isEmpty d = .error e) :
    validateAliases (pre ++ d :: post) = .error e := by
  induction pre with
  | nil => exact validateAliases_cons_err d post e hd
  | cons x pre2 ih =>
    obtain ⟨s, hs⟩ := hpre x (List.mem_cons_self x pre2)
    have hne : (pre2 ++ d :: post).isEmpty = false := by cases pre2 <;> rfl
    rw [List.cons_append, validateAliases, hne, hs,
      ih (fun y hy => hpre y (List.mem_cons_of_mem x hy))]

theorem validateAliases_ok_of (steps : List (PyObject × ClassType))
    (hA : ∀ d ∈ steps, aliasChecksPass d) (hC : capsAllOk steps) :
    validateAliases steps = .ok (steps.map (fun d => aliasString d.1)) := by
  induction steps with
  | nil => rfl
  | cons d rest ih =>
    obtain ⟨s, hstr, hval⟩ := hA d (List.mem_cons_self d rest)
    cases rest with
    | nil =>
      obtain ⟨hfit, hpred⟩ := hC
      obtain ⟨a, c⟩ := d
      cases hstr
      have hok : checkStep ([] : List (PyObject × ClassType)).isEmpty (.str s, c) = .ok s :=
        checkStep_ok_of true s c hval ⟨hfit, fun h => absurd h (by decide), fun _ => hpred⟩
      rw [validateAliases, hok]
      rfl
    | cons e rest2 =>
      obtain ⟨⟨hfit, htr⟩, hC2⟩ := hC
      obtain ⟨a, c⟩ := d
      cases hstr
      rw [validateAliases]
      have hok : checkStep (e :: rest2).isEmpty (.str s, c) = .ok s := by
        exact checkStep_ok_of false s c hval
          ⟨hfit, fun _ => htr, fun h => absurd h (by decide)⟩
      rw [hok, ih (fun y hy => hA y (List.mem_cons_of_mem _ hy)) hC2]
      rfl

theorem validateAliases_err_missing (steps : List (PyObject × ClassType))
    (hA : ∀ d ∈ steps, aliasChecksPass d) (hC : ¬ capsAllOk steps) :
    ∃ cn cap, validateAliases steps = .error (.missingCapability cn cap) := by
  induction steps with
  | nil => exact absurd trivial hC
  | cons d rest ih =>
    obtain ⟨s, hstr, hval⟩ := hA d (List.mem_cons_self d rest)
    cases rest with
    | nil =>
      obtain ⟨a, c⟩ := d
      cases hstr
      have hC2 : ¬ stepCapsOk true c := by
        intro ⟨hfit, _, hpred⟩
        exact hC ⟨hfit, hpred rfl⟩
      obtain ⟨cap, hcap⟩ := checkStep_err_missing true s c hval hC2
      exact ⟨c.name, cap, validateAliases_cons_err _ _ _ hcap⟩
    | cons e rest2 =>
      obtain ⟨a, c⟩ := d
      cases hstr
      by_cases hd : "fit" ∈ dirOf c ∧ "transform" ∈ dirOf c
      · have hC2 : ¬ capsAllOk (e :: rest2) := fun h => hC ⟨hd, h⟩
        obtain ⟨cn, cap, hcap⟩ := ih (fun y hy => hA y (List.mem_cons_of_mem _ hy)) hC2
        have hok : checkStep (e :: rest2).isEmpty (.str s, c) = .ok s :=
          checkStep_ok_of false s c hval
            ⟨hd.1, fun _ => hd.2, fun h => absurd h (by decide)⟩
        exact ⟨cn, cap, by rw [validateAliases, hok, hcap]⟩
      · have hC2 : ¬ stepCapsOk false c := by
          intro ⟨hfit, htr, _⟩
          exact hd ⟨hfit, htr rfl⟩
        obtain ⟨cap, hcap⟩ := checkStep_err_missing false s c hval hC2
        exact ⟨c.name, cap, validateAliases_cons_err _ _ _ hcap⟩

theorem validateAliases_never_dup (steps : List (PyObject × ClassType)) :
    validateAliases steps ≠ .error .duplicateAlias := by
  induction steps with
  | nil => intro h; cases h
  | cons d rest ih =>
    intro h
    rw [validateAliases] at h
    cases h1 : checkStep rest.isEmpty d with
    | error e =>
      rw [h1] at h
      cases h
      exact checkStep_ne_duplicate rest.isEmpty d h1
    | ok s =>
      rw [h1] at h
      cases h2 : validateAliases rest with
      | error e =>
        rw [h2] at h
        cases h
        exact ih h2
      | ok tl => rw [h2] at h; cases h

theorem validateAliases_name_invalid (steps : List (PyObject × ClassType)) (s : String)
    (h : validateAliases steps = .error (.invalidAliasName s)) :
    is_valid_pipeline_name s = false := by
  induction steps with
  | nil => cases h
  | cons d rest ih =>
    rw [validateAliases] at h
    cases h1 : checkStep rest.isEmpty d with
    | error e =>
      rw [h1] at h
      cases h
      exact checkStep_name_invalid rest.isEmpty d s h1
    | ok s2 =>
      rw [h1] at h
      cases h2 : validateAliases rest with
      | error e =>
        rw [h2] at h
        cases h
        exact ih h2
      | ok tl => rw [h2] at h; cases h

theorem compose_eq_ok (steps : List (PyObject × ClassType)) (as : List String)
    (h : validateAliases steps = .ok as) :
    compose steps =
      if as.Nodup then .ok { steps := steps } else .error .duplicateAlias := by
  rw [compose, h]

theorem compose_err_of_validate (steps : List (PyObject × ClassType)) (e : ComposeError)
    (h : validateAliases steps = .error e) : compose steps = .error e := by
  rw [compose, h]

theorem compose_ok_steps (steps : List (PyObject × ClassType)) (pt : PipelineType)
    (h : compose steps = .ok pt) : pt.steps = steps := by
  cases h1 : validateAliases steps with
  | error e => rw [compose_err_of_validate steps e h1] at h; cases h
  | ok as =>
    rw [compose_eq_ok steps as h1] at h
    by_cases h2 : as.Nodup
    · rw [if_pos h2] at h; cases h; rfl
    · rw [if_neg h2] at h; cases h

theorem compose_ok_validate (steps : List (PyObject × ClassType)) (pt : PipelineType)
    (h : compose steps = .ok pt) :
    ∃ as, validateAliases steps = .ok as ∧ as.Nodup := by
  cases h1 : validateAliases steps with
  | error e => rw [compose_err_of_validate steps e h1] at h; cases h
  | ok as =>
    rw [compose_eq_ok steps as h1] at h
    by_cases h2 : as.Nodup
    · exact ⟨as, rfl, h2⟩
    · rw [if_neg h2] at h; cases h

theorem compose_dup_validate (steps : List (PyObject × ClassType))
    (h : compose steps = .error .duplicateAlias) :
    ∃ as, validateAliases steps = .ok as ∧ ¬ as.Nodup := by
  cases h1 : validateAliases steps with
  | error e =>
    rw [compose_err_of_validate steps e h1] at h
    cases h
    exact absurd h1 (validateAliases_never_dup steps)
  | ok as =>
    rw [compose_eq_ok steps as h1] at h
    by_cases h2 : as.Nodup
    · rw [if_pos h2] at h; cases h
    · exact ⟨as, rfl, h2⟩

theorem compose_cons_badname (s : String) (c : ClassType)
    (rest : List (PyObject × ClassType)) (h : is_valid_pipeline_name s = false) :
    compose ((.str s, c) :: rest) = .error (.invalidAliasName s) :=
  compose_err_of_validate _ _
    (validateAliases_cons_err _ _ _ (checkStep_badname rest.isEmpty s c h))

theorem compose_badname_never_ok (s : String) (h : is_valid_pipeline_name s = false)
    (pre : List (PyObject × ClassType)) (c : ClassType)
    (post : List (PyObject × ClassType)) (pt : PipelineType) :
    compose (pre ++ (.str s, c) :: post) ≠ .ok pt := by
  intro hok
  obtain ⟨as, hval, _⟩ := compose_ok_validate _ _ hok
  obtain ⟨s2, hs2⟩ := validateAliases_ok_mem _ _ hval (.str s, c)
    (List.mem_append_right pre (List.mem_cons_self _ post))
  rcases hs2 with h2 | h2 <;>
    · rw [checkStep_badname _ s c h] at h2
      cases h2

theorem splitOnSep_eq (l : List Char) (a b : List Char)
    (h : splitOnSep l = some (a, b)) : l = a ++ '_' :: '_' :: b := by
  induction l generalizing a b with
  | nil => cases h
  | cons c rest ih =>
    cases rest with
    | nil => cases h
    | cons c2 rest2 =>
      rw [splitOnSep] at h
      by_cases hc : c = '_' ∧ c2 = '_'
      · rw [if_pos hc] at h
        simp only [Option.some.injEq, Prod.mk.injEq] at h
        obtain ⟨rfl, rfl⟩ := h
        rw [hc.1, hc.2]
        rfl
      · rw [if_neg hc, Option.map_eq_some'] at h
        obtain ⟨⟨a2, b2⟩, hp, hpe⟩ := h
        simp only [Prod.mk.injEq] at hpe
        obtain ⟨rfl, rfl⟩ := hpe
        rw [List.cons_append, ← ih a2 b2 hp]

theorem splitParamKey_eq (k : String) (a n : String)
    (h : splitParamKey k = some (a, n)) : k = a ++ "__" ++ n := by
  rw [splitParamKey, Option.map_eq_some'] at h
  obtain ⟨⟨a2, b2⟩, hp, hpe⟩ := h
  simp only [Prod.mk.injEq] at hpe
  obtain ⟨rfl, rfl⟩ := hpe
  have hk : k.data = a2 ++ '_' :: '_' :: b2 := splitOnSep_eq k.data a2 b2 hp
  apply String.ext
  rw [String.data_append, String.data_append, hk, List.append_assoc]
  rfl

theorem lookupStr_mem (k : String) (l : List (String × Val)) (v : Val)
    (h : lookupStr k l = some v) : (k, v) ∈ l := by
  induction l with
  | nil => cases h
  | cons e rest ih =>
    rw [lookupStr] at h
    by_cases he : e.1 = k
    · rw [if_pos he] at h
      have : e = (k, v) := by
        obtain ⟨e1, e2⟩ := e
        cases Option.some.inj h
        rw [← he]
      exact this ▸ List.mem_cons_self e rest
    · exact List.mem_cons_of_mem e (ih (by rw [if_neg he] at h; exact h))

theorem subParams_mem (a : String) (flat : List (String × Val)) (n : String) (v : Val)
    (h : (n, v) ∈ subParams a flat) :
    ∃ k, (k, v) ∈ flat ∧ splitParamKey k = some (a, n) := by
  induction flat with
  | nil => cases h
  | cons e rest ih =>
    cases hsp : splitParamKey e.1 with
    | none =>
      simp only [subParams, hsp] at h
      obtain ⟨k, hk, hks⟩ := ih h
      exact ⟨k, List.mem_cons_of_mem e hk, hks⟩
    | some p =>
      simp only [subParams, hsp] at h
      by_cases hpa : p.1 = a
      · rw [if_pos hpa] at h
        rcases List.mem_cons.mp h with h | h
        · have h1 : n = p.2 := congrArg Prod.fst h
          have h2 : v = e.2 := congrArg Prod.snd h
          refine ⟨e.1, by rw [h2]; exact List.mem_cons_self e rest, ?_⟩
          rw [hsp]
          exact congrArg some (Prod.ext_iff.mpr ⟨hpa, h1.symm⟩)
        · obtain ⟨k, hk, hks⟩ := ih h
          exact ⟨k, List.mem_cons_of_mem e hk, hks⟩
      · rw [if_neg hpa] at h
        obtain ⟨k, hk, hks⟩ := ih h
        exact ⟨k, List.mem_cons_of_mem e hk, hks⟩

theorem nodup_keys_val (l : List (String × Val)) (h : (l.map Prod.fst).Nodup)
    (k : String) (v w : Val) (h1 : (k, v) ∈ l) (h2 : (k, w) ∈ l) : v = w := by
  induction l with
  | nil => cases h1
  | cons e rest ih =>
    rw [List.map_cons, List.nodup_cons] at h
    rcases List.mem_cons.mp h1 with he1 | ht1 <;> rcases List.mem_cons.mp h2 with he2 | ht2
    · rw [← he1] at he2
      exact (congrArg Prod.snd he2).symm
    · subst he1
      exact absurd (List.mem_map_of_mem Prod.fst ht2) h.1
    · subst he2
      exact absurd (List.mem_map_of_mem Prod.fst ht1) h.1
    · exact ih h.2 ht1 ht2

theorem get_params_mem_of (p : PipelineInstance) (st : StepInstance) (m : String) (w : Val)
    (hst : st ∈ p.steps) (hm : (m, w) ∈ st.params) :
    (flatKey st.stepAlias m, w) ∈ get_params p := by
  rw [get_params, List.mem_flatten]
  exact ⟨stepFlat st, List.mem_map_of_mem stepFlat hst,
    by rw [stepFlat]; exact List.mem_map.mpr ⟨(m, w), hm, rfl⟩⟩

theorem list_map_self {α : Type} (l : List α) (f : α → α) (h : ∀ x ∈ l, f x = x) :
    l.map f = l := by
  induction l with
  | nil => rfl
  | cons x rest ih =>
    rw [List.map_cons, h x (List.mem_cons_self x rest),
      ih (fun y hy => h y (List.mem_cons_of_mem x hy))]

theorem applySub_id (p : PipelineInstance) (st : StepInstance) (q : String × Val)
    (h : ((get_params p).map Prod.fst).Nodup)
    (hst : st ∈ p.steps) (hq : q ∈ st.params) :
    applySub (subParams st.stepAlias (get_params p)) q = q := by
  rw [applySub]
  cases hl : lookupStr q.1 (subParams st.stepAlias (get_params p)) with
  | none => rfl
  | some v =>
    obtain ⟨k, hkf, hks⟩ := subParams_mem st.stepAlias (get_params p) q.1 v
      (lookupStr_mem q.1 _ v hl)
    have hkey : k = flatKey st.stepAlias q.1 := by
      rw [splitParamKey_eq k st.stepAlias q.1 hks]
      rfl
    have hown : (flatKey st.stepAlias q.1, q.2) ∈ get_params p :=
      get_params_mem_of p st q.1 q.2 hst hq
    have hv : v = q.2 :=
      nodup_keys_val (get_params p) h (flatKey st.stepAlias q.1) v q.2 (hkey ▸ hkf) hown
    rw [hv]

theorem set_params_get_params (p : PipelineInstance)
    (h : ((get_params p).map Prod.fst).Nodup) :
    set_params p (get_params p) = p := by
  rw [set_params]
  have hsteps : p.steps.map
      (fun st => stepSetParams st (subParams st.stepAlias (get_params p))) = p.steps := by
    apply list_map_self
    intro st hst
    rw [stepSetParams,
      list_map_self st.params (applySub (subParams st.stepAlias (get_params p)))
        (fun q hq => applySub_id p st q h hst hq)]
  rw [hsteps]

/-- A two-step descriptor list with valid aliases and capabilities,
used as a concrete instantiation. -/
def twoSteps : List (PyObject × ClassType) :=
  [(.str "a", scalerCls), (.str "b", estCls)]

/-- C1: for every step-descriptor list that passes all validation
checks, compose returns a pipeline type whose `steps` attribute is
bound to exactly the input descriptor list in its declared order, so
every instance's step sequence preserves the declared order. -/
theorem c1_steps_binding (steps : List (PyObject × ClassType)) (pt : PipelineType)
    (h : compose steps = .ok pt) :
    pt.steps = steps ∧
    ∀ flat, (instantiate pt flat).steps.map (fun st => st.stepAlias) =
      steps.map (fun d => aliasString d.1) := by
  have hs := compose_ok_steps steps pt h
  refine ⟨hs, fun flat => ?_⟩
  rw [instantiate, hs, List.map_map]
  rfl

theorem c1_steps_binding_witness :
    compose twoSteps = .ok { steps := twoSteps } ∧
    ({ steps := twoSteps } : PipelineType).steps = twoSteps ∧
    (instantiate { steps := twoSteps } [("b__depth", .vint 9)]).steps.map
      (fun st => st.stepAlias) = ["a", "b"] := by
  refine ⟨rfl, (c1_steps_binding twoSteps { steps := twoSteps } rfl).1, ?_⟩
  exact ((c1_steps_binding twoSteps { steps := twoSteps } rfl).2
    [("b__depth", .vint 9)]).trans (by rfl)

/-- C2: when every alias passes the alias-level checks, compose fails
with a MissingCapability error exactly when some step lacks `fit`, a
non-terminal step lacks `transform`, or the terminal step lacks both
`predict` and `predict_proba`; when the terminal step has `fit` and
`predict` or `predict_proba` (no `transform` required of it) and every
non-terminal step has `fit` and `transform`, the capability checks all
pass and compose can only succeed or report duplicate aliases. -/
theorem c2_capability_gating (steps : List (PyObject × ClassType))
    (hA : ∀ d ∈ steps, aliasChecksPass d) :
    (¬ capsAllOk steps →
      ∃ e, compose steps = .error e ∧ e.isMissingCapability = true) ∧
    (capsAllOk steps →
      compose steps = .ok { steps := steps } ∨
        compose steps = .error .duplicateAlias) := by
  constructor
  · intro hC
    obtain ⟨cn, cap, hval⟩ := validateAliases_err_missing steps hA hC
    exact ⟨.missingCapability cn cap, compose_err_of_validate _ _ hval, rfl⟩
  · intro hC
    have hval := validateAliases_ok_of steps hA hC
    rw [compose_eq_ok _ _ hval]
    by_cases h2 : (steps.map (fun d => aliasString d.1)).Nodup
    · exact Or.inl (if_pos h2)
    · exact Or.inr (if_neg h2)

theorem c2_capability_gating_witness :
    (∃ e, compose [(.str "t", noFitCls)] = .error e ∧
      e.isMissingCapability = true) ∧
    (compose twoSteps = .ok { steps := twoSteps } ∨
      compose twoSteps = .error .duplicateAlias) := by
  constructor
  · exact (c2_capability_gating [(.str "t", noFitCls)]
      (fun d hd => by
        rw [List.mem_singleton] at hd
        subst hd
        exact ⟨"t", rfl, by decide⟩)).1
      (fun hc => absurd hc.1 (by decide))
  · exact (c2_capability_gating twoSteps
      (fun d hd => by
        rcases List.mem_cons.mp hd with h | h
        · subst h; exact ⟨"a", rfl, by decide⟩
        · rw [List.mem_singleton] at h; subst h; exact ⟨"b", rfl, by decide⟩)).2
      ⟨⟨by decide, by decide⟩, by decide, Or.inl (by decide)⟩

/-- C3: compose validates descriptors one at a time in declared order,
raising the first violating descriptor's own error whatever follows it;
within one descriptor the alias-type check precedes the naming check,
which precedes the capability checks; the duplicate-alias check runs
only after every descriptor has passed its per-descriptor checks. -/
theorem c3_check_order :
    (∀ pre d post e,
      (∀ x ∈ pre, ∃ s, checkStep false x = .ok s) →
      checkStep post.isEmpty d = .error e →
      compose (pre ++ d :: post) = .error e) ∧
    (∀ tag c rest, compose ((.other tag, c) :: rest) =
      .error (.invalidAliasType (.other tag))) ∧
    (∀ s c rest, is_valid_pipeline_name s = false →
      compose ((.str s, c) :: rest) = .error (.invalidAliasName s)) ∧
    (∀ s c rest, is_valid_pipeline_name s = true → ¬ ("fit" ∈ dirOf c) →
      compose ((.str s, c) :: rest) = .error (.missingCapability c.name "fit")) ∧
    (∀ steps, compose steps = .error .duplicateAlias →
      ∃ as, validateAliases steps = .ok as ∧ ¬ as.Nodup) := by
  refine ⟨?_, ?_, ?_, ?_, ?_⟩
  · intro pre d post e hpre hd
    exact compose_err_of_validate _ _ (validateAliases_append_err pre d post e hpre hd)
  · intro tag c rest
    exact compose_err_of_validate _ _
      (validateAliases_cons_err _ _ _ (checkStep_other rest.isEmpty tag c))
  · intro s c rest h
    exact compose_cons_badname s c rest h
  · intro s c rest hname hfit
    exact compose_err_of_validate _ _
      (validateAliases_cons_err _ _ _ (checkStep_nofit rest.isEmpty s c hname hfit))
  · exact compose_dup_validate

theorem c3_check_order_witness :
    compose [(.str "a", scalerCls), (.other 0, noFitCls), (.str "b", estCls)] =
      .error (.invalidAliasType (.other 0)) ∧
    compose [(.other 7, estCls)] = .error (.invalidAliasType (.other 7)) ∧
    compose [(.str "x__y", noFitCls), (.str "z", noFitCls)] =
      .error (.invalidAliasName "x__y") ∧
    compose [(.str "a", noFitCls)] = .error (.missingCapability "NoFit" "fit") ∧
    (∃ as, validateAliases [(.str "a", scalerCls), (.str "a", estCls)] = .ok as ∧
      ¬ as.Nodup) := by
  refine ⟨?_, ?_, ?_, ?_, ?_⟩
  · exact c3_check_order.1 [(.str "a", scalerCls)] (.other 0, noFitCls)
      [(.str "b", estCls)] (.invalidAliasType (.other 0))
      (fun x hx => by rw [List.mem_singleton] at hx; subst hx; exact ⟨"a", rfl⟩)
      rfl
  · exact c3_check_order.2.1 7 estCls []
  · exact c3_check_order.2.2.1 "x__y" noFitCls [(.str "z", noFitCls)] (by decide)
  · exact c3_check_order.2.2.2.1 "a" noFitCls [] (by decide) (by decide)
  · exact c3_check_order.2.2.2.2 [(.str "a", scalerCls), (.str "a", estCls)] rfl

/-- C4 counterexample: with T1 = T2 = a class lacking `fit`, composing
[('a', T1), ('a', T2)] fails with a MissingCapability error rather than
DuplicateAlias, so the claim's "regardless of whether T1 and T2 are
themselves valid" is false: a per-descriptor capability failure
preempts the duplicate-alias check. -/
theorem c4_duplicate_counterexample :
    compose [(.str "a", noFitCls), (.str "a", noFitCls)] =
      .error (.missingCapability "NoFit" "fit") ∧
    ComposeError.missingCapability "NoFit" "fit" ≠ ComposeError.duplicateAlias :=
  ⟨rfl, by decide⟩

/-- C4 amended: composing [('a', T1), ('a', T2)] never succeeds for any
T1, T2; it fails with DuplicateAlias whenever T1 and T2 pass their
positional capability checks (T1 has fit and transform, T2 has fit and
predict or predict_proba); otherwise the earlier per-descriptor error
is raised instead. -/
theorem c4_duplicate_rejection (T1 T2 : ClassType) :
    (∀ pt, compose [(.str "a", T1), (.str "a", T2)] ≠ .ok pt) ∧
    ("fit" ∈ dirOf T1 → "transform" ∈ dirOf T1 → "fit" ∈ dirOf T2 →
      ("predict" ∈ dirOf T2 ∨ "predict_proba" ∈ dirOf T2) →
      compose [(.str "a", T1), (.str "a", T2)] = .error .duplicateAlias) := by
  constructor
  · intro pt hok
    obtain ⟨as, hval, hnd⟩ := compose_ok_validate _ _ hok
    have hma : (([(.str "a", T1), (.str "a", T2)] : List (PyObject × ClassType)).map
        (fun d => aliasString d.1)) = ["a", "a"] := rfl
    rw [validateAliases_map _ _ hval, hma] at hnd
    exact absurd hnd (by decide)
  · intro h1 h2 h3 h4
    have hA : ∀ d ∈ [(.str "a", T1), (.str "a", T2)], aliasChecksPass d := by
      intro d hd
      rcases List.mem_cons.mp hd with hh | hh
      · subst hh; exact ⟨"a", rfl, by decide⟩
      · rw [List.mem_singleton] at hh; subst hh; exact ⟨"a", rfl, by decide⟩
    have hC : capsAllOk [(.str "a", T1), (.str "a", T2)] := ⟨⟨h1, h2⟩, h3, h4⟩
    have hval := validateAliases_ok_of _ hA hC
    rw [compose_eq_ok _ _ hval]
    rw [show (([(.str "a", T1), (.str "a", T2)] : List (PyObject × ClassType)).map
        (fun d => aliasString d.1)) = ["a", "a"] from rfl]
    exact if_neg (by decide)

theorem c4_duplicate_rejection_witness :
    compose [(.str "a", scalerCls), (.str "a", estCls)] ≠ .ok { steps := [] } ∧
    compose [(.str "a", scalerCls), (.str "a", estCls)] = .error .duplicateAlias :=
  ⟨(c4_duplicate_rejection scalerCls estCls).1 { steps := [] },
    (c4_duplicate_rejection scalerCls estCls).2 (by decide) (by decide) (by decide)
      (Or.inl (by decide))⟩

/-- C5: under the modelled naming predicate (rejecting exactly empty
strings, digit-initial strings, and strings containing `__`), composing
with alias '1bad' or 'x__y' never succeeds — and fails with
InvalidAliasName when that descriptor is the first one checked — while
alias 'valid_name' never causes an InvalidAliasName failure. -/
theorem c5_alias_naming :
    (∀ pre c post pt, compose (pre ++ (.str "1bad", c) :: post) ≠ .ok pt) ∧
    (∀ c rest, compose ((.str "1bad", c) :: rest) = .error (.invalidAliasName "1bad")) ∧
    (∀ pre c post pt, compose (pre ++ (.str "x__y", c) :: post) ≠ .ok pt) ∧
    (∀ c rest, compose ((.str "x__y", c) :: rest) = .error (.invalidAliasName "x__y")) ∧
    (∀ steps e, compose steps = .error e → e ≠ .invalidAliasName "valid_name") := by
  refine ⟨?_, ?_, ?_, ?_, ?_⟩
  · exact fun pre c post pt => compose_badname_never_ok "1bad" (by decide) pre c post pt
  · exact fun c rest => compose_cons_badname "1bad" c rest (by decide)
  · exact fun pre c post pt => compose_badname_never_ok "x__y" (by decide) pre c post pt
  · exact fun c rest => compose_cons_badname "x__y" c rest (by decide)
  · intro steps e hcomp hne
    subst hne
    cases h1 : validateAliases steps with
    | error e2 =>
      rw [compose_err_of_validate _ _ h1] at hcomp
      cases hcomp
      exact absurd (validateAliases_name_invalid steps "valid_name" h1) (by decide)
    | ok as =>
      rw [compose_eq_ok _ _ h1] at hcomp
      by_cases h2 : as.Nodup
      · rw [if_pos h2] at hcomp; cases hcomp
      · rw [if_neg h2] at hcomp; cases hcomp

theorem c5_alias_naming_witness :
    compose [(.str "1bad", estCls)] ≠ .ok { steps := [] } ∧
    compose [(.str "1bad", estCls)] = .error (.invalidAliasName "1bad") ∧
    compose [(.str "x__y", estCls)] ≠ .ok { steps := [] } ∧
    compose [(.str "x__y", estCls)] = .error (.invalidAliasName "x__y") ∧
    ComposeError.missingCapability "NoFit" "fit" ≠ .invalidAliasName "valid_name" :=
  ⟨c5_alias_naming.1 [] estCls [] { steps := [] },
    c5_alias_naming.2.1 estCls [],
    c5_alias_naming.2.2.1 [] estCls [] { steps := [] },
    c5_alias_naming.2.2.2.1 estCls [],
    c5_alias_naming.2.2.2.2 [(.str "a", noFitCls)] _ rfl⟩

/-- C6: compose is deterministic and effect-free: equal step lists
produce equal outcomes (same success value or same error), and
successful results carry the input list as their step binding; the
embedding is a pure function of its input, reading no shared state. -/
theorem c6_deterministic (s1 s2 : List (PyObject × ClassType)) (h : s1 = s2) :
    compose s1 = compose s2 ∧
    ∀ pt1 pt2, compose s1 = .ok pt1 → compose s2 = .ok pt2 →
      pt1.steps = pt2.steps ∧ pt1.steps = s1 := by
  subst h
  refine ⟨rfl, fun pt1 pt2 h1 h2 => ?_⟩
  rw [h1] at h2
  cases h2
  exact ⟨rfl, compose_ok_steps s1 pt1 h1⟩

theorem c6_deterministic_witness :
    compose twoSteps = compose twoSteps ∧
    ({ steps := twoSteps } : PipelineType).steps =
      ({ steps := twoSteps } : PipelineType).steps ∧
    ({ steps := twoSteps } : PipelineType).steps = twoSteps :=
  ⟨(c6_deterministic twoSteps twoSteps rfl).1,
    (c6_deterministic twoSteps twoSteps rfl).2
      { steps := twoSteps } { steps := twoSteps } rfl rfl⟩

/-- C8: for every pipeline instance whose flat parameter keys are
pairwise distinct (the dict-shaped case), feeding the full mapping
returned by get_params back through set_params leaves the instance
unchanged, and a second get_params returns a mapping equal to the
original one. -/
theorem c8_round_trip (p : PipelineInstance)
    (h : ((get_params p).map Prod.fst).Nodup) :
    set_params p (get_params p) = p ∧
    get_params (set_params p (get_params p)) = get_params p := by
  have hs := set_params_get_params p h
  exact ⟨hs, by rw [hs]⟩

/-- A concrete two-step pipeline instance. -/
def samplePipeline : PipelineInstance :=
  { steps := [{ stepAlias := "a", params := [("x", .vint 1)] },
              { stepAlias := "b", params := [("y", .vint 2), ("z", .vnone)] }] }

theorem c8_round_trip_witness :
    ((get_params samplePipeline).map Prod.fst).Nodup ∧
    get_params (set_params samplePipeline (get_params samplePipeline)) =
      get_params samplePipeline :=
  ⟨by decide, (c8_round_trip samplePipeline (by decide)).2⟩

/-- C9: composing the empty step list raises no error and returns a
pipeline type whose step sequence is empty — the spec's non-emptiness
input constraint is not enforced by any check. -/
theorem c9_empty_steps : compose [] = .ok { steps := [] } := rfl

/-- A transformer-like class whose fit/transform attributes exist but
are not callable. -/
def oddTransCls : ClassType :=
  { name := "OddTrans"
    attrs := [{ name := "fit", callable := false },
              { name := "transform", callable := false }]
    defaults := [] }

/-- An estimator-like class whose fit/predict attributes exist but are
not callable. -/
def oddEstCls : ClassType :=
  { name := "OddEst"
    attrs := [{ name := "fit", callable := false },
              { name := "predict", callable := false }]
    defaults := [] }

/-- An estimator-like class whose fit/predict_proba attributes exist
but are not callable. -/
def oddProbaCls : ClassType :=
  { name := "OddProba"
    attrs := [{ name := "fit", callable := false },
              { name := "predict_proba", callable := false }]
    defaults := [] }

/-- C10: the capability checks test only attribute-name membership in
the class's dir listing, not callability: classes whose fit, transform,
predict or predict_proba attributes are all non-callable still pass the
checks and are admitted into a composed pipeline. -/
theorem c10_noncallable_admitted :
    oddTransCls.attrs.all (fun a => !a.callable) = true ∧
    oddEstCls.attrs.all (fun a => !a.callable) = true ∧
    oddProbaCls.attrs.all (fun a => !a.callable) = true ∧
    compose [(.str "s", oddTransCls), (.str "e", oddEstCls)] =
      .ok { steps := [(.str "s", oddTransCls), (.str "e", oddEstCls)] } ∧
    compose [(.str "e", oddProbaCls)] = .ok { steps := [(.str "e", oddProbaCls)] } :=
  ⟨rfl, rfl, rfl, rfl, rfl⟩
